import Mathlib

/-!
Verification of the report-generation engine against its specification.

Python strings are modelled as lists of characters (`PyStr`); the string
operations used by the code (strip, lower, split, substring tests, the few
regular expressions) are translated into executable Lean functions over that
model.  All characters appearing in the verified claims are ASCII, and on
ASCII input the Lean translations agree with the CPython semantics of the
corresponding operations.
-/

namespace Spec2Proof

/-- Python strings, modelled as lists of Unicode scalar values. -/
abbrev PyStr := List Char

/-- Whitespace per Python (ASCII part): space, tab, newline, CR, VT, FF. -/
def pyIsSpace (c : Char) : Bool :=
  c = ' ' || c = '\t' || c = '\n' || c = '\r' || c = '\x0b' || c = '\x0c'

/-- Word characters per the regex class backslash-w, ASCII part:
letters, digits and the underscore. -/
def pyIsWordChar (c : Char) : Bool :=
  c.isAlpha || c.isDigit || c = '_'

/-- Characters matched by the character class of dash-or-whitespace used in
normalize_section_name. -/
def isDashOrSpace (c : Char) : Bool :=
  c = '-' || pyIsSpace c

/-- Python str.lower, ASCII part (maps A-Z to a-z, fixes everything else). -/
def pyLower (l : PyStr) : PyStr := l.map Char.toLower

/-- Python str.lstrip(): drop leading whitespace. -/
def pyLStrip (l : PyStr) : PyStr := l.dropWhile pyIsSpace

/-- Python str.rstrip(): drop trailing whitespace. -/
def pyRStrip (l : PyStr) : PyStr := (l.reverse.dropWhile pyIsSpace).reverse

/-- Python str.strip(): drop surrounding whitespace. -/
def pyStrip (l : PyStr) : PyStr := pyRStrip (pyLStrip l)

/-- Python str.split() with no arguments: split on runs of whitespace,
producing no empty words.  The accumulator holds the current word reversed. -/
def splitWsGo : PyStr → PyStr → List PyStr
  | [], acc => if acc.isEmpty then [] else [acc.reverse]
  | c :: rest, acc =>
    if pyIsSpace c then
      if acc.isEmpty then splitWsGo rest [] else acc.reverse :: splitWsGo rest []
    else
      splitWsGo rest (c :: acc)

/-- Python str.split() with no arguments. -/
def pySplitWs (l : PyStr) : List PyStr := splitWsGo l []

/-- The Python substring test (the `in` operator on strings). -/
def pySubstr (needle hay : PyStr) : Bool := decide (needle <:+: hay)

/-- Python str.isupper(): at least one cased character, and no cased
character is lowercase (ASCII model: cased = alphabetic). -/
def pyIsUpper (l : PyStr) : Bool :=
  l.any Char.isAlpha && l.all (fun c => !c.isLower)

/-!
Source: src/core/agents/targeted_editing_nodes.py, normalize_section_name.

The leading-numbering regex  ^\d+(\.\d+)*\.?\s*  is translated by a
deterministic scanner; since everything after the initial digit run in the
pattern is optional, greedy matching never needs to backtrack, so the
scanner computes exactly the regex match.
-/

/-- After an initial digit has been consumed, eat the remaining digits of the
current run and any further groups of (dot digits+), as matched greedily by
\d+(\.\d+)* . -/
def eatGroupDigits : PyStr → PyStr
  | [] => []
  | c :: rest =>
    if c.isDigit then eatGroupDigits rest
    else
      match c, rest with
      | '.', d :: rest2 => if d.isDigit then eatGroupDigits rest2 else '.' :: d :: rest2
      | _, _ => c :: rest

/-- The substitution  re.sub(r'^\d+(\.\d+)*\.?\s*', '', name) : if the string
starts with a digit, remove the numbering run, one optional trailing dot and
any following whitespace; otherwise leave the string unchanged. -/
def stripLeadingNumbering (l : PyStr) : PyStr :=
  match l with
  | [] => []
  | c :: rest =>
    if c.isDigit then
      let r1 := eatGroupDigits rest
      let r2 := match r1 with
                | '.' :: r => r
                | _ => r1
      r2.dropWhile pyIsSpace
    else c :: rest

/-- The substitution  re.sub(r'[^\w\s-]', '', name) : keep only word
characters, whitespace and dashes. -/
def keepWordSpaceDash (l : PyStr) : PyStr :=
  l.filter (fun c => pyIsWordChar c || pyIsSpace c || c = '-')

/-- One pass of  re.sub(r'[-\s]+', '_', name) : every maximal run of dashes
and whitespace becomes a single underscore.  The flag records whether the
previous character was part of such a run. -/
def collapseSepsGo : Bool → PyStr → PyStr
  | _, [] => []
  | inRun, c :: rest =>
    if isDashOrSpace c then
      if inRun then collapseSepsGo true rest
      else '_' :: collapseSepsGo true rest
    else c :: collapseSepsGo false rest

/-- The substitution  re.sub(r'[-\s]+', '_', name). -/
def collapseSeps (l : PyStr) : PyStr := collapseSepsGo false l

/-- Python str.strip(underscore): drop leading and trailing underscores. -/
def stripUnderscores (l : PyStr) : PyStr :=
  ((l.dropWhile (fun c => c = '_')).reverse.dropWhile (fun c => c = '_')).reverse

/-- Source: targeted_editing_nodes.normalize_section_name.  Remove a leading
numbering prefix, lowercase, delete characters that are neither word
characters nor whitespace nor dashes, collapse dash/whitespace runs to single
underscores, and strip surrounding underscores. -/
def normalize_section_name (name : PyStr) : PyStr :=
  stripUnderscores (collapseSeps (keepWordSpaceDash (pyLower (stripLeadingNumbering name))))

/-- Does the string start with a decimal digit? -/
def startsWithDigit : PyStr → Bool
  | [] => false
  | c :: _ => c.isDigit

/-! Source: src/core/utils/text_utils.py, normalize_title_for_lookup. -/

/-- The literal lowercase marker checked by normalize_title_for_lookup. -/
def whyMarkerLower : PyStr := ("why ").data

/-- The canonical company-justification key returned for retitled sections. -/
def whyCanonicalKey : PyStr := ("Why Company A").data

/-- Source: text_utils.normalize_title_for_lookup.  Lowercase and strip the
title; if the result starts with the lowercase why-marker, return the
canonical company-justification key, otherwise return the title unchanged. -/
def normalize_title_for_lookup (title : PyStr) : PyStr :=
  let lowerTitle := pyStrip (pyLower title)
  if whyMarkerLower.isPrefixOf lowerTitle then whyCanonicalKey else title

/-!
Source: src/core/agents/targeted_editing_nodes.py, is_heading.

The numbered-heading regex  ^\d+(\.\d+)*\.?\s+[A-Z]  is again translated by a
deterministic greedy scanner; shrinking any of its greedy quantifiers always
leaves the scanner at a position where the rest of the pattern cannot match,
so the scanner agrees with the backtracking regex engine.
-/

/-- Match of  ^\d+(\.\d+)*\.?\s+[A-Z]  at the start of the line. -/
def headNumbered (t : PyStr) : Bool :=
  match t with
  | [] => false
  | c :: rest =>
    c.isDigit &&
    (let r1 := eatGroupDigits rest
     let r2 := match r1 with
               | '.' :: r => r
               | _ => r1
     match r2 with
     | [] => false
     | d :: _ =>
       pyIsSpace d &&
       (match r2.dropWhile pyIsSpace with
        | [] => false
        | e :: _ => e.isUpper))

/-- Python  line.endswith(('.', ',', ';', '!', '?')). -/
def endsSentencePunct (t : PyStr) : Bool :=
  match t.getLast? with
  | none => false
  | some c => c = '.' || c = ',' || c = ';' || c = '!' || c = '?'

/-- The sentence-word set of heading pattern 3 (includes the word and). -/
def fillerWords3 : List PyStr :=
  [ ("the").data, ("a").data, ("an").data, ("is").data, ("are").data,
    ("was").data, ("were").data, ("to").data, ("of").data, ("in").data,
    ("on").data, ("for").data, ("with").data, ("at").data, ("by").data,
    ("and").data ]

/-- The sentence-word set of heading pattern 4 (without the word and). -/
def fillerWords4 : List PyStr :=
  [ ("the").data, ("a").data, ("an").data, ("is").data, ("are").data,
    ("was").data, ("were").data, ("to").data, ("of").data, ("in").data,
    ("on").data, ("for").data, ("with").data, ("at").data, ("by").data ]

/-- The interrogative lead words of heading pattern 3. -/
def interrogLeads : List PyStr :=
  [ ("how").data, ("what").data, ("why").data, ("when").data,
    ("where").data, ("who").data ]

/-- Python  len(sentence_words & set(lower_words)) : the number of DISTINCT
filler words that occur among the lowercased words of the line.  The filler
lists above have no duplicates, so filtering them counts the intersection. -/
def distinctFillerCount (fillers : List PyStr) (lowerWords : List PyStr) : ℕ :=
  (fillers.filter (fun f => lowerWords.contains f)).length

/-- Number of words whose first character is uppercase
(Python  sum(1 for w in words if w and w[0].isupper()) ). -/
def capWordCount (words : List PyStr) : ℕ :=
  (words.filter (fun w => match w with
                          | [] => false
                          | c :: _ => c.isUpper)).length

/-- Does the first word, lowercased, belong to the interrogative lead
words (Python words[0].lower() in the list)? -/
def leadsInterrogative (words : List PyStr) : Bool :=
  match words.head? with
  | none => false
  | some w => interrogLeads.contains (pyLower w)

/-- Heading pattern 1 of is_heading: fully upper-case, length strictly
between 3 and 80. -/
def headingPattern1 (t : PyStr) : Bool :=
  pyIsUpper t && decide (3 < t.length) && decide (t.length < 80)

/-- Heading pattern 3 of is_heading: short interrogative heading.  The guard
conditions appear in the order of the source; the word-count comparison
common_count < word_count / 2 uses exact float halves and is rendered as
2 * common_count < word_count. -/
def headingPattern3 (t : PyStr) (words : List PyStr) : Bool :=
  decide (2 ≤ words.length) && decide (words.length ≤ 12) &&
  !endsSentencePunct t &&
  leadsInterrogative words &&
  decide (2 * distinctFillerCount fillerWords3 (words.map pyLower) < words.length)

/-- Heading pattern 4 of is_heading: title-case heading.  cap_ratio >= 0.5 is
rendered exactly as word_count <= 2 * capitalized. -/
def headingPattern4 (t : PyStr) (words : List PyStr) : Bool :=
  decide (2 ≤ words.length) && decide (words.length ≤ 12) &&
  decide (words.length ≤ 2 * capWordCount words) &&
  !endsSentencePunct t &&
  decide (distinctFillerCount fillerWords4 (words.map pyLower) ≤ 2)

/-- The body of is_heading applied to the already-stripped line. -/
def isHeadingCore (t : PyStr) : Bool :=
  if t.isEmpty then false
  else if 100 < t.length then false
  else
    let words := pySplitWs t
    if headingPattern1 t then true
    else if headNumbered t then true
    else if headingPattern3 t words then true
    else if headingPattern4 t words then true
    else false

/-- Source: targeted_editing_nodes.is_heading.  The line is stripped first;
empty and overlong lines are rejected; then the four patterns are tried in
source order. -/
def is_heading (line : PyStr) : Bool := isHeadingCore (pyStrip line)

/-!
Source: src/core/agents/targeted_editing_nodes.py,
edit_single_section and edit_sections_node.

The generation sub-graph invoked for a matched section is an external
capability; it is abstracted as a function from the matched section data and
the requested change to the produced new title and content.
-/

/-- A parsed example section as stored in example_sections: display title and
original content (the redundant key field is the association key itself). -/
structure SectionData where
  title : PyStr
  content : PyStr
deriving DecidableEq

/-- One requested change of the targeted-editing pipeline. -/
structure SectionChange where
  section_name : PyStr
  user_direction : PyStr
deriving DecidableEq

/-- Result of the section-editing sub-graph: new title and new content. -/
structure EditOutcome where
  new_title : PyStr
  new_content : PyStr
deriving DecidableEq

/-- The fuzzy matcher of edit_single_section: the first parsed key (in
iteration order) such that the normalized requested name is a substring of
the key or the key is a substring of the normalized requested name. -/
def findMatchKey (nameKey : PyStr) (keys : List PyStr) : Option PyStr :=
  keys.find? (fun k => pySubstr nameKey k || pySubstr k nameKey)

/-- Python dict access example_sections[matching_key] (keys are unique, so
the first association is the value). -/
def dictGet (sections : List (PyStr × SectionData)) (k : PyStr) : SectionData :=
  match sections.find? (fun p => p.1 == k) with
  | some p => p.2
  | none => ⟨[], []⟩

/-- Source: edit_single_section.  Normalize the requested name, find the
first fuzzy-matching parsed key; no match means the request is skipped
(returns none); otherwise the editing sub-graph (abstracted as editFn) is
invoked on the matched section. -/
def edit_single_section (editFn : SectionData → SectionChange → EditOutcome)
    (sections : List (PyStr × SectionData)) (ch : SectionChange) :
    Option (PyStr × SectionData) :=
  let sectionKey := normalize_section_name ch.section_name
  match findMatchKey sectionKey (sections.map Prod.fst) with
  | none => none
  | some matchingKey =>
    let outcome := editFn (dictGet sections matchingKey) ch
    some (matchingKey, ⟨outcome.new_title, outcome.new_content⟩)

/-- Python dict insertion d[k] = v: replace in place if the key is present,
otherwise append. -/
def dictInsert (d : List (PyStr × SectionData)) (k : PyStr) (v : SectionData) :
    List (PyStr × SectionData) :=
  if d.any (fun p => p.1 == k) then
    d.map (fun p => if p.1 == k then (k, v) else p)
  else d ++ [(k, v)]

/-- Source: edit_sections_node.  All requested edits run concurrently via
asyncio.gather, which returns results in request order; results whose key is
none (section not found) are filtered out, the rest are collected into the
modified_sections dict in that order. -/
def edit_sections_node (editFn : SectionData → SectionChange → EditOutcome)
    (sections : List (PyStr × SectionData)) (changes : List SectionChange) :
    List (PyStr × SectionData) :=
  (changes.map (edit_single_section editFn sections)).foldl
    (fun d r => match r with
                | none => d
                | some (k, v) => dictInsert d k v) []

/-- Association lookup in the modified_sections dict. -/
def dictFind (d : List (PyStr × SectionData)) (k : PyStr) : Option SectionData :=
  (d.find? (fun p => p.1 == k)).map Prod.snd

/-!
A model of json.loads.  JSON values keep numbers as their raw character
spans (no claim depends on numeric magnitudes, only on zero-ness for
Python truthiness).  The parser is written with a fuel argument for
structural termination; every recursive call first consumes at least one
character, so fuel = length + 1 never runs out on accepted inputs.
-/

/-- Parsed JSON values. -/
inductive JVal where
  | jnull : JVal
  | jbool : Bool → JVal
  | jnum : PyStr → JVal
  | jstr : PyStr → JVal
  | jarr : List JVal → JVal
  | jobj : List (PyStr × JVal) → JVal

/-- JSON whitespace accepted between tokens by json.loads. -/
def jsonWs (c : Char) : Bool :=
  c = ' ' || c = '\t' || c = '\n' || c = '\r'

/-- Hexadecimal digit value. -/
def hexDigitVal (c : Char) : Option ℕ :=
  if c.isDigit then some (c.toNat - 48)
  else if 'a' ≤ c ∧ c ≤ 'f' then some (c.toNat - 87)
  else if 'A' ≤ c ∧ c ≤ 'F' then some (c.toNat - 55)
  else none

/-- Parse the remainder of a JSON string literal (after the opening quote),
returning the decoded characters and the input after the closing quote.
Control characters below 0x20 are rejected, as by json.loads in strict
mode.  Surrogate pairing of u-escapes is not modelled. -/
def parseJStr : ℕ → PyStr → Option (PyStr × PyStr)
  | 0, _ => none
  | _, [] => none
  | fuel + 1, c :: rest =>
    if c = '"' then some ([], rest)
    else if c = '\\' then
      match rest with
      | [] => none
      | e :: rest2 =>
        let decoded : Option (Char × PyStr) :=
          if e = '"' then some ('"', rest2)
          else if e = '\\' then some ('\\', rest2)
          else if e = '/' then some ('/', rest2)
          else if e = 'b' then some ('\x08', rest2)
          else if e = 'f' then some ('\x0c', rest2)
          else if e = 'n' then some ('\n', rest2)
          else if e = 'r' then some ('\r', rest2)
          else if e = 't' then some ('\t', rest2)
          else if e = 'u' then
            match rest2 with
            | h1 :: h2 :: h3 :: h4 :: rest3 =>
              match hexDigitVal h1, hexDigitVal h2, hexDigitVal h3, hexDigitVal h4 with
              | some a, some b, some c3, some d =>
                let n := ((a * 16 + b) * 16 + c3) * 16 + d
                if h : n.isValidChar then some (Char.ofNatAux n h, rest3) else none
              | _, _, _, _ => none
            | _ => none
          else none
        match decoded with
        | none => none
        | some (ch, rest4) =>
          match parseJStr fuel rest4 with
          | some (s, rest5) => some (ch :: s, rest5)
          | none => none
    else if c.toNat < 32 then none
    else
      match parseJStr fuel rest with
      | some (s, rest5) => some (c :: s, rest5)
      | none => none

/-- Parse a JSON number starting at the given input (first character already
known to start a number), returning its raw span and the rest. -/
def parseJNum (l : PyStr) : Option (PyStr × PyStr) :=
  let afterSign := match l with
                   | '-' :: r => r
                   | r => r
  let signChars : PyStr := match l with
                           | '-' :: _ => ['-']
                           | _ => []
  match afterSign with
  | [] => none
  | c :: _ =>
    if ¬c.isDigit then none
    else
      let intChars : PyStr :=
        if c = '0' then ['0'] else afterSign.takeWhile Char.isDigit
      let afterInt :=
        if c = '0' then afterSign.drop 1 else afterSign.dropWhile Char.isDigit
      let fracStep : Option (PyStr × PyStr) :=
        match afterInt with
        | '.' :: d :: r =>
          if d.isDigit then
            some ('.' :: (d :: r).takeWhile Char.isDigit, (d :: r).dropWhile Char.isDigit)
          else none
        | '.' :: _ => none
        | r => some ([], r)
      match fracStep with
      | none => none
      | some (fracChars, afterFrac) =>
        let expStep : Option (PyStr × PyStr) :=
          match afterFrac with
          | e :: r =>
            if e = 'e' ∨ e = 'E' then
              let signedR := match r with
                             | s :: r2 => if s = '+' ∨ s = '-' then (([s] : PyStr), r2) else ([], r)
                             | [] => ([], r)
              match signedR.2 with
              | d :: _ =>
                if d.isDigit then
                  some (e :: signedR.1 ++ signedR.2.takeWhile Char.isDigit,
                        signedR.2.dropWhile Char.isDigit)
                else none
              | [] => none
            else some ([], e :: r)
          | [] => some ([], [])
        match expStep with
        | none => none
        | some (expChars, afterExp) =>
          some (signChars ++ intChars ++ fracChars ++ expChars, afterExp)

mutual

/-- Parse one JSON value after skipping leading whitespace.  Every
recursive call strictly decreases the fuel. -/
def parseJVal : ℕ → PyStr → Option (JVal × PyStr)
  | 0, _ => none
  | fuel + 1, l =>
    match l.dropWhile jsonWs with
    | [] => none
    | c :: rest =>
      if c = '{' then
        match parseJMembers fuel rest with
        | some (kvs, rest2) => some (JVal.jobj kvs, rest2)
        | none => none
      else if c = '[' then
        match parseJItems fuel rest with
        | some (vs, rest2) => some (JVal.jarr vs, rest2)
        | none => none
      else if c = '"' then
        match parseJStr (rest.length + 1) rest with
        | some (s, rest2) => some (JVal.jstr s, rest2)
        | none => none
      else if c = 't' then
        match rest with
        | 'r' :: 'u' :: 'e' :: rest2 => some (JVal.jbool true, rest2)
        | _ => none
      else if c = 'f' then
        match rest with
        | 'a' :: 'l' :: 's' :: 'e' :: rest2 => some (JVal.jbool false, rest2)
        | _ => none
      else if c = 'n' then
        match rest with
        | 'u' :: 'l' :: 'l' :: rest2 => some (JVal.jnull, rest2)
        | _ => none
      else
        match parseJNum (c :: rest) with
        | some (raw, rest2) => some (JVal.jnum raw, rest2)
        | none => none

/-- Parse the members of an object, the input starting right after the
opening brace or right after a separating comma (a closing brace directly
after a comma — a trailing comma — is rejected by the caller before
recursing). -/
def parseJMembers : ℕ → PyStr → Option (List (PyStr × JVal) × PyStr)
  | 0, _ => none
  | fuel + 1, l =>
    match l.dropWhile jsonWs with
    | '}' :: rest => some ([], rest)
    | '"' :: rest =>
      (match parseJStr (rest.length + 1) rest with
       | some (key, rest2) =>
         (match rest2.dropWhile jsonWs with
          | ':' :: rest3 =>
            (match parseJVal fuel rest3 with
             | some (v, rest4) =>
               (match rest4.dropWhile jsonWs with
                | ',' :: rest5 =>
                  if (rest5.dropWhile jsonWs).head? = some '}' then none
                  else
                    (match parseJMembers fuel rest5 with
                     | some (kvs, rest6) => some ((key, v) :: kvs, rest6)
                     | none => none)
                | '}' :: rest5 => some ([(key, v)], rest5)
                | _ => none)
             | none => none)
          | _ => none)
       | none => none)
    | _ => none

/-- Parse the items of an array, the input starting right after the opening
bracket or right after a separating comma (trailing commas rejected by the
caller). -/
def parseJItems : ℕ → PyStr → Option (List JVal × PyStr)
  | 0, _ => none
  | fuel + 1, l =>
    match l.dropWhile jsonWs with
    | ']' :: rest => some ([], rest)
    | _ =>
      match parseJVal fuel l with
      | some (v, rest2) =>
        (match rest2.dropWhile jsonWs with
         | ',' :: rest3 =>
           if (rest3.dropWhile jsonWs).head? = some ']' then none
           else
             (match parseJItems fuel rest3 with
              | some (vs, rest4) => some (v :: vs, rest4)
              | none => none)
         | ']' :: rest3 => some ([v], rest3)
         | _ => none)
      | none => none

end

/-- Model of json.loads: parse one value and require only whitespace after
it; returns none where json.loads raises JSONDecodeError. -/
def jsonParse (l : PyStr) : Option JVal :=
  match parseJVal (l.length + 1) l with
  | some (v, rest) => if (rest.dropWhile jsonWs).isEmpty then some v else none
  | none => none

/-!
Source: src/core/agents/section_editor.py, clean_llm_response and
edit_section_with_llm_node.

The brace-span regex  curly [^{}]* (?: curly [^{}]* closecurly [^{}]* )* closecurly
matches, at a given start, an opening brace, a run of non-brace characters,
any number of one-level-nested brace groups each followed by non-brace runs,
and a closing brace.  Shrinking any greedy non-brace run leaves the engine at
a non-brace character where neither alternative of the rest of the pattern
can match, so a deterministic greedy scanner computes the regex match, and
re.search takes the leftmost start position at which the scan succeeds.
-/

/-- Characters allowed inside the brace-span character classes. -/
def nonBraceChar (c : Char) : Bool := !(c = '{' || c = '}')

/-- Greedy scan of the brace-span pattern after the initial open brace and
first non-brace run have been consumed into the accumulator; the scan
position is at a brace or at the end of input. -/
def braceLoopF : ℕ → PyStr → PyStr → Option (PyStr × PyStr)
  | 0, _, _ => none
  | fuel + 1, l, acc =>
    match l with
    | '}' :: rest => some (acc ++ ['}'], rest)
    | '{' :: rest =>
      let b := rest.takeWhile nonBraceChar
      let r2 := rest.dropWhile nonBraceChar
      (match r2 with
       | '}' :: r3 =>
         braceLoopF fuel (r3.dropWhile nonBraceChar)
           (acc ++ '{' :: b ++ '}' :: r3.takeWhile nonBraceChar)
       | _ => none)
    | _ => none

/-- Attempt to match the brace-span pattern at the start of the input,
returning the matched span and the remaining input. -/
def matchBraceAt (l : PyStr) : Option (PyStr × PyStr) :=
  match l with
  | '{' :: rest =>
    braceLoopF (l.length + 1) (rest.dropWhile nonBraceChar)
      ('{' :: rest.takeWhile nonBraceChar)
  | _ => none

/-- re.search for the brace-span pattern: the match at the leftmost start
position where the pattern matches (every match starts with an open
brace). -/
def searchBraceSpan : PyStr → Option PyStr
  | [] => none
  | c :: rest =>
    if c = '{' then
      match matchBraceAt (c :: rest) with
      | some (m, _) => some m
      | none => searchBraceSpan rest
    else searchBraceSpan rest

/-- The substitution removing markdown fences, re.sub of three backticks
followed by word characters and an optional newline, replaced by nothing,
scanning left to right over non-overlapping occurrences.  (The second fence
substitution of the source can never fire afterwards, because this pass
leaves no run of three consecutive backticks.)  Fuel is at least the input
length plus one, and every step consumes at least one character. -/
def removeFencesF : ℕ → PyStr → PyStr
  | 0, l => l
  | _, [] => []
  | fuel + 1, c :: rest =>
    match c, rest with
    | '`', '`' :: '`' :: rest2 =>
      let r1 := rest2.dropWhile pyIsWordChar
      removeFencesF fuel (match r1 with
                          | '\n' :: r => r
                          | _ => r1)
    | _, _ => c :: removeFencesF fuel rest

/-- The markdown-fence removal of clean_llm_response. -/
def removeFences (l : PyStr) : PyStr := removeFencesF (l.length + 1) l

/-- The boilerplate prefixes stripped by clean_llm_response, in source
order. -/
def knownLeadIns : List PyStr :=
  [ ("Here is the result:").data,
    ("Here's the output:").data,
    ("Output:").data,
    ("Result:").data,
    ("JSON:").data,
    ("Here is the rewritten section:").data,
    ("Rewritten section:").data,
    ("Here's the updated content:").data,
    ("Updated content:").data,
    ("Here is the modified section:").data ]

/-- One step of the prefix-stripping loop: the test lowercases and strips the
current text, but the slice text[len(p):] is taken from the unstripped text,
exactly as in the source. -/
def stripOneLeadIn (text : PyStr) (p : PyStr) : PyStr :=
  if (pyLower p).isPrefixOf (pyLower (pyStrip text)) then pyStrip (text.drop p.length)
  else text

/-- The prefix-stripping loop of clean_llm_response. -/
def stripLeadIns (text : PyStr) : PyStr := knownLeadIns.foldl stripOneLeadIn text

/-- The second half of clean_llm_response, reached when the first regex
search does not yield valid JSON: remove fences and boilerplate prefixes,
search again, and otherwise return the stripped text (the final try/except
of the source returns the cleaned text whether or not it parses). -/
def cleanFallback (text : PyStr) : PyStr :=
  let t2 := stripLeadIns (removeFences text)
  match searchBraceSpan t2 with
  | some m => if (jsonParse m).isSome then pyStrip m else pyStrip t2
  | none => pyStrip t2

/-- Source: section_editor.clean_llm_response. -/
def clean_llm_response (text : PyStr) : PyStr :=
  match searchBraceSpan text with
  | some m => if (jsonParse m).isSome then pyStrip m else cleanFallback text
  | none => cleanFallback text

/-- Python dict lookup on a parsed JSON object: duplicate keys were collapsed
by json.loads with the last occurrence winning. -/
def jobjGet (kvs : List (PyStr × JVal)) (k : PyStr) : Option JVal :=
  (kvs.reverse.find? (fun p => p.1 == k)).map Prod.snd

/-- Zero test for a raw JSON number: the value is zero exactly when the
mantissa (the part before any exponent marker) has no nonzero digit. -/
def jnumIsZero (raw : PyStr) : Bool :=
  (raw.takeWhile (fun c => ¬(c = 'e' ∨ c = 'E'))).all (fun c => !(c.isDigit && c ≠ '0'))

/-- Python truthiness of a parsed JSON value (`if not new_content`). -/
def jsonFalsy : JVal → Bool
  | JVal.jnull => true
  | JVal.jbool b => !b
  | JVal.jnum raw => jnumIsZero raw
  | JVal.jstr s => s.isEmpty
  | JVal.jarr xs => xs.isEmpty
  | JVal.jobj kvs => kvs.isEmpty

/-- The object key for the rewritten title. -/
def titleKey : PyStr := ("title").data

/-- The object key for the rewritten content. -/
def contentKey : PyStr := ("content").data

/-- Source: section_editor.edit_section_with_llm_node, the processing of the
generation response (the generation call itself is a black-box capability,
so the response text is the model's input).  The source runs
json.loads(clean_llm_response(response_text)) with no exception handler, so
an unparseable cleaned text raises JSONDecodeError out of the node (modelled
as Except.error carrying the cleaned text); a non-object result raises
AttributeError on result.get, and a truthy non-string content raises on
new_content.split().  A missing title falls back to the section title, and a
falsy content (in particular the empty string or a missing field) falls back
to the original content. -/
def edit_section_with_llm (responseText sectionTitle originalContent : PyStr) :
    Except PyStr (JVal × PyStr) :=
  let cleanedText := clean_llm_response responseText
  match jsonParse cleanedText with
  | none => Except.error cleanedText
  | some (JVal.jobj kvs) =>
    let newTitle := (jobjGet kvs titleKey).getD (JVal.jstr sectionTitle)
    let rawContent := (jobjGet kvs contentKey).getD (JVal.jstr [])
    if jsonFalsy rawContent then Except.ok (newTitle, originalContent)
    else
      match rawContent with
      | JVal.jstr s => Except.ok (newTitle, s)
      | _ => Except.error cleanedText
  | some _ => Except.error cleanedText

/-!
Source: src/core/agents/extractor.py, extract_key_data and extractor_node.
The extraction agent is a black-box capability; the response text it
produces for each source is the model's input.
-/

/-- The sentinel with which extraction responses are instructed to end. -/
def terminateMarker : PyStr := ("TERMINATE").data

/-- Python response.split(sentinel)[0]: the part before the first occurrence
of the sentinel, or the whole string when the sentinel does not occur. -/
def takeBeforeMarker : PyStr → PyStr
  | [] => []
  | c :: rest =>
    if terminateMarker.isPrefixOf (c :: rest) then [] else c :: takeBeforeMarker rest

/-- Source: extractor.extract_key_data, the processing of the agent response:
json.loads(response.split(sentinel)[0]) with no exception handler, so an
unparseable response raises JSONDecodeError out of the call (Except.error
carrying the payload that failed to parse). -/
def extract_key_data (responseText : PyStr) : Except PyStr JVal :=
  let payload := takeBeforeMarker responseText
  match jsonParse payload with
  | some v => Except.ok v
  | none => Except.error payload

/-- Source: extractor.extractor_node: a dict comprehension running
extract_key_data for every source in order; the first raised exception
propagates and aborts the whole node. -/
def extractor_node (sourceResponses : List (PyStr × PyStr)) :
    Except PyStr (List (PyStr × JVal)) :=
  sourceResponses.mapM (fun p => (extract_key_data p.2).map (fun v => (p.1, v)))

/-!
Source: src/core/config/rag_config.py (RagParameters, RagPreset) and
src/core/store.py (add_sources).
-/

/-- Validated RAG parameters; similarity_threshold is a rational model of
the float field, integer fields are naturals (they are nonnegative within
their validated bounds). -/
structure RagParameters where
  similarity_threshold : ℚ
  top_k : ℕ
  chunk_size : ℕ
  overlap : ℕ
deriving DecidableEq

/-- The discrete chunk sizes allowed by validate_chunk_size. -/
def allowedChunkSizes : List ℤ := [256, 512, 1024]

/-- Python min(values, key=lambda x: abs(x - v)): the first element attaining
the minimal distance (a later element replaces the current best only when
strictly closer). -/
def pyMinByDist (xs : List ℤ) (v : ℤ) : ℤ :=
  match xs with
  | [] => v
  | x :: rest => rest.foldl (fun best a => if (a - v).natAbs < (best - v).natAbs then a else best) x

/-- Source: RagParameters.validate_chunk_size: a value outside the allowed
set is replaced by the closest allowed value. -/
def validate_chunk_size (v : ℤ) : ℤ :=
  if v = 256 ∨ v = 512 ∨ v = 1024 then v else pyMinByDist allowedChunkSizes v

/-- Model of pydantic construction of RagParameters: the declared field
bounds are checked first (a violation is a validation error naming the
field), then the chunk-size field validator snaps the value. -/
def mkRagParameters (st : ℚ) (tk cs ov : ℤ) : Except PyStr RagParameters :=
  if ¬(0 ≤ st ∧ st ≤ 1) then Except.error (("similarity_threshold").data)
  else if ¬(1 ≤ tk ∧ tk ≤ 50) then Except.error (("top_k").data)
  else if ¬(100 ≤ cs ∧ cs ≤ 2000) then Except.error (("chunk_size").data)
  else if ¬(0 ≤ ov ∧ ov ≤ 50) then Except.error (("overlap").data)
  else Except.ok ⟨st, tk.toNat, (validate_chunk_size cs).toNat, ov.toNat⟩

/-- The DEFAULT preset. -/
def ragDefault : RagParameters := ⟨6/10, 5, 512, 15⟩

/-- The HIGH_PRECISION preset. -/
def ragHighPrecision : RagParameters := ⟨8/10, 3, 256, 10⟩

/-- The COMPREHENSIVE preset. -/
def ragComprehensive : RagParameters := ⟨5/10, 10, 1024, 20⟩

/-- The FAST preset. -/
def ragFast : RagParameters := ⟨7/10, 3, 256, 10⟩

/-- The preset dictionary of RagPreset.get_preset. -/
def presetTable : List (PyStr × RagParameters) :=
  [ (("default").data, ragDefault),
    (("high_precision").data, ragHighPrecision),
    (("comprehensive").data, ragComprehensive),
    (("fast").data, ragFast) ]

/-- Source: RagPreset.get_preset: presets.get(name.lower(), DEFAULT). -/
def get_preset (name : PyStr) : RagParameters :=
  match presetTable.find? (fun p => p.1 == pyLower name) with
  | some p => p.2
  | none => ragDefault

/-- Python int() truncation toward zero on an exact rational value. -/
def pyIntTruncQ (q : ℚ) : ℤ := if 0 ≤ q then ⌊q⌋ else -⌊-q⌋

/-- Source: store.add_sources, chunk_overlap_tokens =
int(chunk_size * (overlap / 100.0)).  The float expression is modelled by
the exact rational value: for every validated parameter set the chunk size
is one of 256, 512, 1024 — a power of two, by which double multiplication is
exact — and overlap/100.0 rounds to a double within 2^-53, so the float
result differs from the exact rational by far less than its distance (at
least 1/25 when not integral) to the nearest integer, making the truncated
values identical. -/
def add_sources_overlap (p : RagParameters) : ℤ :=
  pyIntTruncQ ((p.chunk_size : ℚ) * ((p.overlap : ℚ) / 100))

/-!
Source: src/core/agents/drafting.py (walk_sections, fetch_section_draft,
draft_sections) and src/core/agents/state.py (TemplateSectionDef).

The section tree is the mutual inductive of nodes and ordered key-to-node
forests (the Python dict of subsections, in insertion order).  The drafting
sub-graph run for a section with instructions is a black-box generation
capability, abstracted as a function from the section to its draft text.
asyncio.gather is modelled explicitly: tasks finish in an arbitrary
completion order, each writing its value into the result slot of its own
launch index.
-/

/-- Authoring instructions of a section (TemplateInstruction). -/
structure TemplateInstruction where
  objective : PyStr
  tone : Option PyStr
  length : Option PyStr
  format : Option PyStr

mutual

/-- A section node (TemplateSectionDef). -/
inductive SecDef where
  | mk (title : PyStr) (source : PyStr) (instructions : Option TemplateInstruction)
       (content : PyStr) (subsections : SecForest)

/-- An ordered mapping of keys to subsection nodes. -/
inductive SecForest where
  | nil
  | cons (key : PyStr) (s : SecDef) (rest : SecForest)

end

/-- Title accessor. -/
def SecDef.title : SecDef → PyStr
  | SecDef.mk t _ _ _ _ => t

/-- Instructions accessor. -/
def SecDef.instructions : SecDef → Option TemplateInstruction
  | SecDef.mk _ _ i _ _ => i

/-- Content accessor. -/
def SecDef.content : SecDef → PyStr
  | SecDef.mk _ _ _ c _ => c

mutual

/-- Source: drafting.walk_sections: yield each node of the mapping, then
recursively the nodes of its subsections, depth-first in pre-order.  (The
source guards the recursion by the truthiness of the subsections dict; an
empty forest contributes nothing either way.) -/
def walkNode : SecDef → List SecDef
  | SecDef.mk t src ins c subs => SecDef.mk t src ins c subs :: walkForest subs

/-- walk_sections over a forest. -/
def walkForest : SecForest → List SecDef
  | SecForest.nil => []
  | SecForest.cons _ s rest => walkNode s ++ walkForest rest

end

mutual

/-- Positional write-back of drafted contents into one node: the zip of the
walk with the content list consumes one content for the node itself, then
fills the subsections with the remainder; an exhausted content list leaves
the rest of the tree untouched (zip stops at the shorter sequence). -/
def fillNode : SecDef → List PyStr → SecDef × List PyStr
  | SecDef.mk t src ins c subs, [] => (SecDef.mk t src ins c subs, [])
  | SecDef.mk t src ins _ subs, cNew :: cs =>
    let p := fillForest subs cs
    (SecDef.mk t src ins cNew p.1, p.2)

/-- Positional write-back over a forest. -/
def fillForest : SecForest → List PyStr → SecForest × List PyStr
  | SecForest.nil, cs => (SecForest.nil, cs)
  | SecForest.cons k s rest, cs =>
    let p := fillNode s cs
    let q := fillForest rest p.2
    (SecForest.cons k p.1 q.1, q.2)

end

/-- Source: drafting.fetch_section_draft: a node with instructions is drafted
by its own sub-graph (the abstracted capability f); a node without
instructions yields the empty string. -/
def fetch_section_draft (f : SecDef → PyStr) (s : SecDef) : PyStr :=
  if s.instructions.isSome then f s else []

/-- One completion schedule of asyncio.gather: process the launch indices in
completion order, each task writing its (deterministic) value into the slot
of its launch index. -/
def runGather (vals : List PyStr) (order : List ℕ) : List (Option PyStr) :=
  order.foldl (fun acc i => acc.set i (some (vals.getD i [])))
    (List.replicate vals.length none)

/-- Source: drafting.draft_sections: launch one drafting task per walked
node, gather them (order is a completion schedule), and zip the walked nodes
with the gathered contents, writing each content into its node. -/
def draft_sections (secs : SecForest) (f : SecDef → PyStr) (order : List ℕ) : SecForest :=
  let vals := (walkForest secs).map (fetch_section_draft f)
  let contents := (runGather vals order).map (fun o => o.getD [])
  (fillForest secs contents).1

/-- Positional overlay of a content list over the walked contents: the i-th
content replaces the i-th walked content; walked nodes beyond the content
list keep their content (the zip stops at the shorter sequence). -/
def overlay : List PyStr → List PyStr → List PyStr
  | ss, [] => ss
  | [], _ :: _ => []
  | _ :: ss, c :: cs => c :: overlay ss cs

/-!
Spec-side definitions for the heading-classification claim, written from the
words of the specification so that the code can be compared against them.
-/

/-- Number of word occurrences that are filler words: the reading of the
claim's fewer-than-half-its-words condition, counting repeated filler words
once per occurrence. -/
def fillerOccCount (fillers : List PyStr) (lowerWords : List PyStr) : ℕ :=
  (lowerWords.filter (fun w => fillers.contains w)).length

/-- Spec rule (c): 2 to 12 words, starts with an interrogative lead word, no
trailing sentence punctuation, and fewer filler words than half the word
count; the way filler words are counted is a parameter. -/
def specInterrogRule (countFn : List PyStr → List PyStr → ℕ) (t : PyStr) : Bool :=
  let words := pySplitWs t
  decide (2 ≤ words.length) && decide (words.length ≤ 12) &&
  leadsInterrogative words &&
  !endsSentencePunct t &&
  decide (2 * countFn fillerWords3 (words.map pyLower) < words.length)

/-- Spec rule (d): 2 to 12 words, at least half of them capitalized, no
trailing sentence punctuation, at most two filler words (counting mode again
a parameter). -/
def specTitleRule (countFn : List PyStr → List PyStr → ℕ) (t : PyStr) : Bool :=
  let words := pySplitWs t
  decide (2 ≤ words.length) && decide (words.length ≤ 12) &&
  decide (words.length ≤ 2 * capWordCount words) &&
  !endsSentencePunct t &&
  decide (countFn fillerWords4 (words.map pyLower) ≤ 2)

/-- The claim's classification procedure, read literally: a line longer than
100 characters is never a heading, otherwise it is a heading exactly when
one of the four rules applies to the line, with filler conditions counting
word occurrences.  (No whitespace trimming appears in the claim.) -/
def specHeadingClaim (line : PyStr) : Bool :=
  if 100 < line.length then false
  else
    headingPattern1 line || headNumbered line ||
    specInterrogRule fillerOccCount line || specTitleRule fillerOccCount line

/-- The amended classification procedure: every condition, including the
100-character limit, applies to the line with surrounding whitespace
removed, and the filler conditions count distinct filler words present in
the line rather than occurrences. -/
def specHeadingAmended (line : PyStr) : Bool :=
  let t := pyStrip line
  if 100 < t.length then false
  else
    headingPattern1 t || headNumbered t ||
    specInterrogRule distinctFillerCount t || specTitleRule distinctFillerCount t

/-- The fuzzy-match relation of the claim: the normalized requested name is
a substring of the parsed key or the parsed key is a substring of the
normalized requested name. -/
def matchRel (nk k : PyStr) : Prop := nk <:+: k ∨ k <:+: nk

/-- The fuzzy-match relation is decidable. -/
instance matchRelDecidable (nk k : PyStr) : Decidable (matchRel nk k) :=
  inferInstanceAs (Decidable (nk <:+: k ∨ k <:+: nk))

/-! Concrete inputs used by the theorems below. -/

/-- An editing capability used as concrete witness input: it titles the
section as before and returns the user direction as content. -/
def idEditFn : SectionData → SectionChange → EditOutcome :=
  fun d ch => ⟨d.title, ch.user_direction⟩

/-- A concrete parsed example with two sections. -/
def demoParsedSections : List (PyStr × SectionData) :=
  [ ((("scope_of_work").data), ⟨("Scope of Work").data, ("Body A").data⟩),
    ((("risks").data), ⟨("Risks").data, ("Body B").data⟩) ]

/-- A requested change whose normalized name matches no parsed key. -/
def demoNoMatchChange : SectionChange :=
  ⟨("Budget Overview").data, ("change it").data⟩

/-- A requested change whose section name normalizes to the empty string. -/
def demoEmptyNameChange : SectionChange := ⟨("!!!").data, ("x").data⟩

/-- Concrete authoring instructions for the demo tree. -/
def demoInstr : TemplateInstruction := ⟨("obj").data, none, none, none⟩

/-- A demo section tree: a parent with one subsection, then a sibling
without instructions (a structural placeholder). -/
def demoTree : SecForest :=
  SecForest.cons (("intro").data)
    (SecDef.mk (("Intro").data) (("src1").data) (some demoInstr) []
      (SecForest.cons (("background").data)
        (SecDef.mk (("Background").data) (("src1").data) (some demoInstr) [] SecForest.nil)
        SecForest.nil))
    (SecForest.cons (("risks").data)
      (SecDef.mk (("Risks").data) [] none [] SecForest.nil)
      SecForest.nil)

/-- A line on which the code and the claim's procedure disagree: three of its
four words are the filler word is, so the claim's fewer-than-half-its-words
condition fails and no other rule applies, yet the code counts the one
distinct filler word and classifies the line as a heading. -/
def demoFillerLine : PyStr := ("what is is is").data

/-- The upper-case example line of the claim. -/
def execSummaryLine : PyStr := ("EXECUTIVE SUMMARY").data

/-- A generation response for a section rewrite that contains no structured
record at all. -/
def demoUnparseableResponse : PyStr := ("I could not generate the section.").data

/-- A generation response whose structured record parses but carries an
empty content field (wrapped in a markdown fence). -/
def demoEmptyContentResponse : PyStr :=
  ("```json\n\x7b\"title\": \"New Title\", \"content\": \"\"\x7d\n```").data

/-- An extraction response ending in the sentinel whose payload is not
parseable as JSON. -/
def demoBadExtraction : PyStr := ("Sorry, I cannot extract that. TERMINATE").data

/-- A well-formed extraction response. -/
def demoGoodExtraction : PyStr :=
  ("\x7b\"Scope\": \x7b\"Company Name\": \"Acme\"\x7d\x7d TERMINATE").data

/-! Theorems.  First, general lemmas about the character-level primitives. -/

/-- Converting a valid code point to a character and back is the identity. -/
theorem toNat_ofNat_valid (n : Nat) (h : n.isValidChar) : (Char.ofNat n).toNat = n := by
  rw [Char.ofNat, dif_pos h]
  rfl

/-- No character with code point 33 or above is Python whitespace. -/
theorem spaceFalseOfToNat (x : Char) (h : 33 ≤ x.toNat) : pyIsSpace x = false := by
  have h1 : ¬(x = ' ') := fun he => by rw [he] at h; exact absurd h (by decide)
  have h2 : ¬(x = '\t') := fun he => by rw [he] at h; exact absurd h (by decide)
  have h3 : ¬(x = '\n') := fun he => by rw [he] at h; exact absurd h (by decide)
  have h4 : ¬(x = '\r') := fun he => by rw [he] at h; exact absurd h (by decide)
  have h5 : ¬(x = '\x0b') := fun he => by rw [he] at h; exact absurd h (by decide)
  have h6 : ¬(x = '\x0c') := fun he => by rw [he] at h; exact absurd h (by decide)
  unfold pyIsSpace
  rw [decide_eq_false h1, decide_eq_false h2, decide_eq_false h3, decide_eq_false h4,
      decide_eq_false h5, decide_eq_false h6]
  rfl

/-- Lowercasing does not change whether a character is whitespace. -/
theorem pyIsSpace_toLower (c : Char) : pyIsSpace (Char.toLower c) = pyIsSpace c := by
  unfold Char.toLower
  by_cases h : c.toNat ≥ 65 ∧ c.toNat ≤ 90
  · rw [if_pos h]
    have ht := toNat_ofNat_valid (c.toNat + 32) (Or.inl (by omega))
    rw [spaceFalseOfToNat _ (by rw [ht]; omega), spaceFalseOfToNat c (by omega)]
  · rw [if_neg h]

/-- dropWhile does not reach the empty list while the list still holds an
element on which the predicate fails. -/
theorem dropWhile_ne_nil_of_exists (p : Char → Bool) (l : PyStr)
    (h : ∃ c ∈ l, p c = false) : l.dropWhile p ≠ [] := by
  induction l with
  | nil => rcases h with ⟨c, hc, _⟩; cases hc
  | cons a t ih =>
    rcases h with ⟨c, hc, hcp⟩
    by_cases ha : p a
    · rw [List.dropWhile_cons_of_pos ha]
      apply ih
      rcases List.mem_cons.mp hc with rfl | hct
      · rw [ha] at hcp; cases hcp
      · exact ⟨c, hct, hcp⟩
    · rw [List.dropWhile_cons_of_neg ha]
      exact List.cons_ne_nil a t

/-- Trailing-whitespace stripping of an append strips only the second part
as long as the second part holds some non-whitespace character. -/
theorem pyRStrip_append (a b : PyStr) (h : ∃ c ∈ b, pyIsSpace c = false) :
    pyRStrip (a ++ b) = a ++ pyRStrip b := by
  unfold pyRStrip
  rw [List.reverse_append, List.dropWhile_append]
  have hne : List.dropWhile pyIsSpace b.reverse ≠ [] := by
    apply dropWhile_ne_nil_of_exists
    rcases h with ⟨c, hc, hcp⟩
    exact ⟨c, List.mem_reverse.mpr hc, hcp⟩
  rw [if_neg (by simpa using hne), List.reverse_append, List.reverse_reverse]

/-- A list is a Boolean prefix of itself followed by anything. -/
theorem isPrefixOf_append_self (a b : PyStr) : a.isPrefixOf (a ++ b) = true := by
  induction a with
  | nil => simp [List.isPrefixOf]
  | cons c t ih =>
    show List.isPrefixOf (c :: t) (c :: (t ++ b)) = true
    rw [List.isPrefixOf_cons₂_self]
    exact ih

/-- Reordering two factors inside a five-fold conjunction of Booleans. -/
theorem boolReorder5 (a b c d e : Bool) :
    (a && b && c && d && e) = (a && b && d && c && e) := by
  cases c <;> cases d <;> simp

/-- A cascade of early returns is the disjunction of its conditions. -/
theorem iteChain4 (a b c d : Bool) :
    (if a then true else if b then true else if c then true else if d then true else false)
      = (a || b || c || d) := by
  cases a <;> cases b <;> cases c <;> cases d <;> rfl

/-- Pattern 3 of the source equals spec rule (c) with distinct-filler
counting; the two state the same conditions in a different order. -/
theorem pattern3_spec (t : PyStr) :
    headingPattern3 t (pySplitWs t) = specInterrogRule distinctFillerCount t := by
  unfold headingPattern3 specInterrogRule
  exact boolReorder5 _ _ _ _ _

/-- Pattern 4 of the source equals spec rule (d) with distinct-filler
counting. -/
theorem pattern4_spec (t : PyStr) :
    headingPattern4 t (pySplitWs t) = specTitleRule distinctFillerCount t := rfl

/-- The stripped-line classifier body agrees with the amended rule
disjunction. -/
theorem isHeadingCore_spec (t : PyStr) :
    isHeadingCore t =
      (if 100 < t.length then false
       else headingPattern1 t || headNumbered t ||
            specInterrogRule distinctFillerCount t || specTitleRule distinctFillerCount t) := by
  cases t with
  | nil => decide
  | cons c rest =>
    unfold isHeadingCore
    rw [← pattern3_spec, ← pattern4_spec]
    simp only [List.isEmpty_cons, Bool.false_eq_true, if_false]
    by_cases h : 100 < (c :: rest).length
    · rw [if_pos h, if_pos h]
    · rw [if_neg h, if_neg h]
      exact iteChain4 _ _ _ _

/-- C7, counterexample: the heading classifier does not decide every line by
the claim's procedure — the code classifies the demo line as a heading while
the claim's procedure (filler words counted per occurrence) rejects it. -/
theorem c7_heading_claim_counterexample :
    is_heading demoFillerLine = true ∧ specHeadingClaim demoFillerLine = false := by
  constructor
  · decide
  · decide

set_option maxRecDepth 4000 in
/-- C7, amended: the heading classifier decides every line by the spec's
procedure provided that (i) all conditions, including the 100-character
limit, are applied to the line with surrounding whitespace stripped, and
(ii) the filler-word conditions of rules (c) and (d) count distinct filler
words occurring in the line rather than word occurrences; in particular the
upper-case example line is a heading and a line of 150 letters is not. -/
theorem c7_heading_amended :
    (∀ line : PyStr, is_heading line = specHeadingAmended line) ∧
    is_heading execSummaryLine = true ∧
    is_heading (List.replicate 150 'a') = false := by
  refine ⟨fun line => ?_, by decide, by decide⟩
  unfold is_heading specHeadingAmended
  exact isHeadingCore_spec (pyStrip line)

/-- C9: the high-precision preset has exactly the claimed four values, any
name whose lowercased form is not a preset key resolves to the default
preset, and a chunk size within the validated band but outside the allowed
set snaps to a nearest allowed value (no allowed value is strictly
closer). -/
theorem c9_presets_and_chunk_snap :
    ((get_preset (("high_precision").data)).similarity_threshold = 4/5 ∧
     (get_preset (("high_precision").data)).top_k = 3 ∧
     (get_preset (("high_precision").data)).chunk_size = 256 ∧
     (get_preset (("high_precision").data)).overlap = 10) ∧
    (∀ name : PyStr, pyLower name ∉ presetTable.map Prod.fst → get_preset name = ragDefault) ∧
    (∀ v : ℤ, 100 ≤ v → v ≤ 2000 → ¬(v = 256 ∨ v = 512 ∨ v = 1024) →
      (validate_chunk_size v = 256 ∨ validate_chunk_size v = 512 ∨ validate_chunk_size v = 1024) ∧
      ∀ a : ℤ, (a = 256 ∨ a = 512 ∨ a = 1024) →
        (validate_chunk_size v - v).natAbs ≤ (a - v).natAbs) := by
  have hp : get_preset (("high_precision").data) = ragHighPrecision := rfl
  refine ⟨⟨by rw [hp]; norm_num [ragHighPrecision], rfl, rfl, rfl⟩, ?_, ?_⟩
  · intro name hname
    unfold get_preset
    cases hfind : presetTable.find? (fun p => p.1 == pyLower name) with
    | none => rfl
    | some p =>
      exfalso
      have hmem := List.mem_of_find?_eq_some hfind
      have hbeq := List.find?_some hfind
      have heq : p.1 = pyLower name := eq_of_beq hbeq
      exact hname (heq ▸ List.mem_map_of_mem Prod.fst hmem)
  · intro v h1 h2 h3
    unfold validate_chunk_size
    rw [if_neg h3]
    unfold pyMinByDist allowedChunkSizes
    simp only [List.foldl]
    constructor
    · split_ifs <;> omega
    · intro a ha
      rcases ha with ha | ha | ha <;> subst ha <;> split_ifs <;> omega

/-- C9, witness: the unrecognized name bogus resolves to the default preset,
and chunk size 300 snaps to an allowed value at distance no more than any
other allowed value (it snaps to 256, at distance 44). -/
theorem c9_presets_and_chunk_snap_witness :
    get_preset (("bogus").data) = ragDefault ∧
    ((validate_chunk_size 300 = 256 ∨ validate_chunk_size 300 = 512 ∨
        validate_chunk_size 300 = 1024) ∧
      ∀ a : ℤ, (a = 256 ∨ a = 512 ∨ a = 1024) →
        (validate_chunk_size 300 - 300).natAbs ≤ (a - 300).natAbs) :=
  ⟨c9_presets_and_chunk_snap.2.1 (("bogus").data) (by decide),
   c9_presets_and_chunk_snap.2.2 300 (by decide) (by decide) (by decide)⟩

/-- C8: the absolute chunk overlap of add_sources is the floor of
chunk_size times overlap over 100, for every parameter set; in particular
512 with 15 percent gives 76 and 1024 with 25 percent gives 256. -/
theorem c8_overlap_is_floor :
    add_sources_overlap ⟨6/10, 5, 512, 15⟩ = 76 ∧
    add_sources_overlap ⟨6/10, 5, 1024, 25⟩ = 256 ∧
    ∀ p : RagParameters, add_sources_overlap p = ((p.chunk_size * p.overlap) / 100 : ℕ) := by
  have hgen : ∀ p : RagParameters, add_sources_overlap p = ((p.chunk_size * p.overlap) / 100 : ℕ) := by
    intro p
    unfold add_sources_overlap pyIntTruncQ
    have h0 : (0 : ℚ) ≤ (p.chunk_size : ℚ) * ((p.overlap : ℚ) / 100) := by positivity
    rw [if_pos h0]
    have hc : (p.chunk_size : ℚ) * ((p.overlap : ℚ) / 100)
        = ((p.chunk_size * p.overlap : ℕ) : ℚ) / ((100 : ℕ) : ℚ) := by
      push_cast
      ring
    rw [hc]
    have h1 : (0:ℤ) ≤ ⌊((p.chunk_size * p.overlap : ℕ) : ℚ) / ((100 : ℕ) : ℚ)⌋ := by
      apply Int.floor_nonneg.mpr
      positivity
    have hfloor : (⌊((p.chunk_size * p.overlap : ℕ) : ℚ) / ((100 : ℕ) : ℚ)⌋₊ : ℕ)
        = p.chunk_size * p.overlap / 100 := Nat.floor_div_eq_div (p.chunk_size * p.overlap) 100
    calc ⌊((p.chunk_size * p.overlap : ℕ) : ℚ) / ((100 : ℕ) : ℚ)⌋
        = ((⌊((p.chunk_size * p.overlap : ℕ) : ℚ) / ((100 : ℕ) : ℚ)⌋.toNat : ℕ) : ℤ) :=
          (Int.toNat_of_nonneg h1).symm
      _ = ((⌊((p.chunk_size * p.overlap : ℕ) : ℚ) / ((100 : ℕ) : ℚ)⌋₊ : ℕ) : ℤ) := by
          rw [Int.floor_toNat]
      _ = ((p.chunk_size * p.overlap / 100 : ℕ) : ℤ) := by rw [hfloor]
  refine ⟨?_, ?_, hgen⟩
  · rw [hgen]; norm_num
  · rw [hgen]; norm_num

/-- C1: evaluating the edit stage at a rewrite response with no parseable
structured record.  The clean-up step returns the unparseable text with a
warning, but the following json.loads call of edit_section_with_llm_node has
no exception handler, so a JSONDecodeError escapes the edit stage instead of
falling back to the original content; the empty-content half of the claimed
behaviour does hold (second conjunct). -/
theorem c1_unparseable_rewrite_raises :
    edit_section_with_llm demoUnparseableResponse (("Scope").data) (("Original body").data)
      = Except.error demoUnparseableResponse ∧
    edit_section_with_llm demoEmptyContentResponse (("Scope").data) (("Original body").data)
      = Except.ok (JVal.jstr ("New Title").data, ("Original body").data) :=
  ⟨rfl, rfl⟩

/-- C2: evaluating the extraction stage at a malformed extraction response.
extract_key_data runs json.loads on the payload before the sentinel with no
exception handler, so a malformed response raises JSONDecodeError instead of
recording an empty mapping, and the extractor node aborts without completing
the remaining sources (second conjunct: a well-formed first source does not
survive a malformed second one). -/
theorem c2_malformed_extraction_raises :
    extract_key_data demoBadExtraction
      = Except.error (("Sorry, I cannot extract that. ").data) ∧
    extractor_node
        [((("source_a").data), demoGoodExtraction), ((("source_b").data), demoBadExtraction)]
      = Except.error (("Sorry, I cannot extract that. ").data) :=
  ⟨rfl, rfl⟩

/-- C5, counterexample: the bare title consisting of the word Why and a
single space begins with the why-marker, yet normalize_title_for_lookup
returns it unchanged rather than the canonical company-justification key,
because the lookup lowercases and strips the title before testing the
marker and the stripped form has nothing after the word. -/
theorem c5_claim_counterexample :
    (("Why ").data).isPrefixOf (("Why ").data) = true ∧
    normalize_title_for_lookup (("Why ").data) = ("Why ").data ∧
    normalize_title_for_lookup (("Why ").data) ≠ whyCanonicalKey := by
  exact ⟨by decide, by decide, by decide⟩

/-- The why-rule of the lookup normalization holds for every title made of
the why-marker followed by a suffix holding at least one non-whitespace
character. -/
theorem whyRuleHolds (s : PyStr) (h : ∃ c ∈ s, pyIsSpace c = false) :
    normalize_title_for_lookup ((("Why ").data) ++ s) = whyCanonicalKey := by
  show (if whyMarkerLower.isPrefixOf (pyStrip (pyLower ((("Why ").data) ++ s)))
        then whyCanonicalKey else (("Why ").data) ++ s) = whyCanonicalKey
  have hmap : pyLower ((("Why ").data) ++ s) = (("why ").data) ++ pyLower s := by
    unfold pyLower
    rw [List.map_append]
    rfl
  have hls : ∃ c ∈ pyLower s, pyIsSpace c = false := by
    rcases h with ⟨c, hc, hcp⟩
    exact ⟨Char.toLower c, List.mem_map_of_mem _ hc, by rw [pyIsSpace_toLower]; exact hcp⟩
  have hl : pyLStrip ((("why ").data) ++ pyLower s) = (("why ").data) ++ pyLower s := by
    show List.dropWhile pyIsSpace ('w' :: ((("hy ").data) ++ pyLower s)) = _
    rw [List.dropWhile_cons_of_neg (by decide)]
    rfl
  have hstrip : pyStrip ((("why ").data) ++ pyLower s)
      = (("why ").data) ++ pyRStrip (pyLower s) := by
    unfold pyStrip
    rw [hl]
    exact pyRStrip_append _ _ hls
  rw [hmap, hstrip]
  rw [show whyMarkerLower = ("why ").data from rfl]
  rw [isPrefixOf_append_self]
  rfl

/-- C5, amended: the snake-case normalization maps the numbered example
title to scope_of_work, and the lookup normalization maps every title
beginning with the word Why followed by a space and at least one further
non-whitespace character to the canonical company-justification key, making
any two such titles equivalent for data lookup.  (The bare title Why-space
with nothing after it is the one exception the counterexample forces.) -/
theorem c5_normalization_amended :
    normalize_section_name (("1.1 Scope of Work").data) = ("scope_of_work").data ∧
    (∀ s : PyStr, (∃ c ∈ s, pyIsSpace c = false) →
      normalize_title_for_lookup ((("Why ").data) ++ s) = whyCanonicalKey) ∧
    (∀ s t : PyStr, (∃ c ∈ s, pyIsSpace c = false) → (∃ c ∈ t, pyIsSpace c = false) →
      normalize_title_for_lookup ((("Why ").data) ++ s)
        = normalize_title_for_lookup ((("Why ").data) ++ t)) := by
  refine ⟨by decide, whyRuleHolds, fun s t hs ht => ?_⟩
  rw [whyRuleHolds s hs, whyRuleHolds t ht]

/-- C5, witness: the rule applied to the concrete retitled section name Why
Us, which looks up the canonical key. -/
theorem c5_normalization_amended_witness :
    normalize_title_for_lookup ((("Why ").data) ++ (("Us").data)) = whyCanonicalKey :=
  c5_normalization_amended.2.1 (("Us").data) (by decide)

/-- The first element of a list satisfying the predicate of find?, with a
decomposition witnessing that every earlier element fails the predicate. -/
theorem find?_first_decomp {α : Type} (p : α → Bool) (l : List α) (a : α)
    (h : l.find? p = some a) :
    p a = true ∧ ∃ pre post, l = pre ++ a :: post ∧ ∀ b ∈ pre, p b = false := by
  induction l with
  | nil => cases h
  | cons x t ih =>
    by_cases hx : p x
    · rw [List.find?_cons_of_pos t hx] at h
      cases h
      exact ⟨hx, [], t, rfl, by intro b hb; cases hb⟩
    · rw [List.find?_cons_of_neg t hx] at h
      obtain ⟨hpa, pre, post, heq, hpre⟩ := ih h
      refine ⟨hpa, x :: pre, post, by rw [heq]; rfl, ?_⟩
      intro b hb
      rcases List.mem_cons.mp hb with rfl | hbp
      · exact eq_false_of_ne_true hx
      · exact hpre b hbp

/-- Rewriting edit_single_section as a map over its fuzzy-match result. -/
theorem edit_single_section_eq (editFn : SectionData → SectionChange → EditOutcome)
    (sections : List (PyStr × SectionData)) (ch : SectionChange) :
    edit_single_section editFn sections ch =
      (findMatchKey (normalize_section_name ch.section_name) (sections.map Prod.fst)).map
        (fun k => (k, ⟨(editFn (dictGet sections k) ch).new_title,
                       (editFn (dictGet sections k) ch).new_content⟩)) := by
  show (match findMatchKey (normalize_section_name ch.section_name) (sections.map Prod.fst) with
        | none => none
        | some matchingKey =>
          some (matchingKey,
            ({ title := (editFn (dictGet sections matchingKey) ch).new_title,
               content := (editFn (dictGet sections matchingKey) ch).new_content } : SectionData))) = _
  cases findMatchKey (normalize_section_name ch.section_name) (sections.map Prod.fst) <;> rfl

/-- The Boolean matcher of findMatchKey decides the fuzzy-match relation. -/
theorem matchPred_iff (nk k : PyStr) :
    (pySubstr nk k || pySubstr k nk) = true ↔ matchRel nk k := by
  simp only [pySubstr, Bool.or_eq_true, decide_eq_true_eq, matchRel]

/-- Unequal strings are not Boolean-equal. -/
theorem beq_false_of_ne (a b : PyStr) (h : a ≠ b) : (a == b) = false := by
  cases hab : a == b
  · rfl
  · exact absurd (eq_of_beq hab) h

/-- Inserting under a different key preserves the absence of a key from the
modified-sections dictionary. -/
theorem dictFind_insert_ne (d : List (PyStr × SectionData)) (k2 : PyStr) (v : SectionData)
    (k : PyStr) (h : k2 ≠ k) (hd : dictFind d k = none) :
    dictFind (dictInsert d k2 v) k = none := by
  unfold dictFind at hd ⊢
  rw [Option.map_eq_none'] at hd ⊢
  rw [List.find?_eq_none] at hd ⊢
  intro p hp
  unfold dictInsert at hp
  by_cases hany : d.any (fun q => q.1 == k2)
  · rw [if_pos hany] at hp
    obtain ⟨q, hq, hfq⟩ := List.mem_map.mp hp
    by_cases hqk : q.1 == k2
    · rw [if_pos hqk] at hfq
      rw [← hfq]
      simpa using beq_false_of_ne k2 k h
    · rw [if_neg hqk] at hfq
      rw [← hfq]
      exact hd q hq
  · rw [if_neg hany] at hp
    rcases List.mem_append.mp hp with hpd | hpn
    · exact hd p hpd
    · rcases List.mem_singleton.mp hpn with rfl
      simpa using beq_false_of_ne k2 k h

/-- A key for which every per-request result is either skipped or matched
elsewhere never enters the folded modified-sections dictionary. -/
theorem foldStep_absent (rs : List (Option (PyStr × SectionData))) (k : PyStr)
    (h : ∀ r ∈ rs, ∀ res, r ≠ some (k, res)) :
    ∀ d, dictFind d k = none →
      dictFind (rs.foldl (fun d r => match r with
                                     | none => d
                                     | some (k2, v) => dictInsert d k2 v) d) k = none := by
  induction rs with
  | nil => intro d hd; exact hd
  | cons r t ih =>
    intro d hd
    rw [List.foldl_cons]
    apply ih (fun r2 hr2 res => h r2 (List.mem_cons_of_mem r hr2) res)
    cases r with
    | none => exact hd
    | some p =>
      obtain ⟨k2, v⟩ := p
      apply dictFind_insert_ne d k2 v k _ hd
      intro hk
      exact h (some (k2, v)) (List.mem_cons_self _ _) v (by rw [hk])

/-- C6: a requested change is matched exactly when the normalized requested
name is a substring of some parsed key or vice versa, the matched key is the
first such key in iteration order, its result is the edit outcome for that
key, and a request that matches no key is skipped without error: the
per-request result is none and a key no request matches is absent from the
assembled modified_sections. -/
theorem c6_fuzzy_match_semantics :
    (∀ (editFn : SectionData → SectionChange → EditOutcome)
       (sections : List (PyStr × SectionData)) (ch : SectionChange),
      (edit_single_section editFn sections ch = none ↔
        ∀ k ∈ sections.map Prod.fst, ¬matchRel (normalize_section_name ch.section_name) k) ∧
      (∀ k res, edit_single_section editFn sections ch = some (k, res) →
        k ∈ sections.map Prod.fst ∧
        matchRel (normalize_section_name ch.section_name) k ∧
        res = ⟨(editFn (dictGet sections k) ch).new_title,
               (editFn (dictGet sections k) ch).new_content⟩ ∧
        ∃ pre post, sections.map Prod.fst = pre ++ k :: post ∧
          ∀ k2 ∈ pre, ¬matchRel (normalize_section_name ch.section_name) k2)) ∧
    (∀ (editFn : SectionData → SectionChange → EditOutcome)
       (sections : List (PyStr × SectionData)) (changes : List SectionChange) (k : PyStr),
      (∀ ch ∈ changes, ∀ res, edit_single_section editFn sections ch ≠ some (k, res)) →
      dictFind (edit_sections_node editFn sections changes) k = none) := by
  constructor
  · intro editFn sections ch
    rw [edit_single_section_eq]
    constructor
    · rw [Option.map_eq_none']
      unfold findMatchKey
      rw [List.find?_eq_none]
      constructor
      · intro h k hk hrel
        exact h k hk ((matchPred_iff _ _).mpr hrel)
      · intro h k hk hp
        exact h k hk ((matchPred_iff _ _).mp hp)
    · intro k res h
      cases hfind : findMatchKey (normalize_section_name ch.section_name)
          (sections.map Prod.fst) with
      | none => rw [hfind] at h; cases h
      | some k0 =>
        rw [hfind] at h
        simp only [Option.map_some'] at h
        obtain ⟨hk, hres⟩ : k0 = k ∧ _ = res :=
          ⟨congrArg Prod.fst (Option.some.inj h), congrArg Prod.snd (Option.some.inj h)⟩
        subst hk
        obtain ⟨hp, pre, post, heq, hpre⟩ := find?_first_decomp _ _ _ hfind
        refine ⟨by rw [heq]; exact List.mem_append_right _ (List.mem_cons_self _ _),
                (matchPred_iff _ _).mp hp, hres.symm, pre, post, heq, ?_⟩
        intro k2 hk2 hrel
        have h2 := hpre k2 hk2
        rw [(matchPred_iff _ _).mpr hrel] at h2
        cases h2
  · intro editFn sections changes k h
    unfold edit_sections_node
    apply foldStep_absent
    · intro r hr res
      obtain ⟨ch, hch, rfl⟩ := List.mem_map.mp hr
      exact h ch hch res
    · rfl

/-- C6, witness: the request Budget Overview matches neither demo key, its
per-request result is none, and the scope key it did not match stays absent
from the assembled modified sections of a run holding only that request. -/
theorem c6_fuzzy_match_semantics_witness :
    edit_single_section idEditFn demoParsedSections demoNoMatchChange = none ∧
    dictFind (edit_sections_node idEditFn demoParsedSections [demoNoMatchChange])
      (("scope_of_work").data) = none := by
  have hnone : edit_single_section idEditFn demoParsedSections demoNoMatchChange = none :=
    (c6_fuzzy_match_semantics.1 idEditFn demoParsedSections demoNoMatchChange).1.mpr (by decide)
  refine ⟨hnone, ?_⟩
  apply c6_fuzzy_match_semantics.2 idEditFn demoParsedSections [demoNoMatchChange]
  intro ch hch res
  rcases List.mem_singleton.mp hch with rfl
  rw [hnone]
  exact fun hcontra => Option.noConfusion hcontra

/-- C10: a request whose section name normalizes to the empty string always
matches the first parsed key of a non-empty parsed example, because the
empty string is a substring of every key; it is never reported as not
found. -/
theorem c10_empty_name_matches_first :
    ∀ (editFn : SectionData → SectionChange → EditOutcome)
      (k0 : PyStr) (d0 : SectionData) (rest : List (PyStr × SectionData)) (ch : SectionChange),
      normalize_section_name ch.section_name = [] →
      edit_single_section editFn ((k0, d0) :: rest) ch
        = some (k0, ⟨(editFn d0 ch).new_title, (editFn d0 ch).new_content⟩) := by
  intro editFn k0 d0 rest ch h
  rw [edit_single_section_eq]
  have hfind : findMatchKey (normalize_section_name ch.section_name)
      (((k0, d0) :: rest).map Prod.fst) = some k0 := by
    unfold findMatchKey
    rw [h]
    rw [show ((k0, d0) :: rest).map Prod.fst = k0 :: rest.map Prod.fst from rfl]
    rw [List.find?_cons_of_pos _ (by simp [pySubstr, List.nil_infix])]
  rw [hfind]
  have hget : dictGet ((k0, d0) :: rest) k0 = d0 := by
    unfold dictGet
    rw [List.find?_cons_of_pos _ (by simp)]
  rw [Option.map_some', hget]

/-- C10, witness: the all-punctuation request name normalizes to the empty
string and matches the first demo section. -/
theorem c10_empty_name_matches_first_witness :
    edit_single_section idEditFn demoParsedSections demoEmptyNameChange
      = some ((("scope_of_work").data),
          ⟨(idEditFn ⟨("Scope of Work").data, ("Body A").data⟩ demoEmptyNameChange).new_title,
           (idEditFn ⟨("Scope of Work").data, ("Body A").data⟩ demoEmptyNameChange).new_content⟩) :=
  c10_empty_name_matches_first idEditFn (("scope_of_work").data)
    ⟨("Scope of Work").data, ("Body A").data⟩
    [((("risks").data), ⟨("Risks").data, ("Body B").data⟩)]
    demoEmptyNameChange (by decide)

/-! Lemmas toward the idempotence analysis of normalize_section_name. -/

/-- Lowercasing is idempotent on characters. -/
theorem toLower_toLower (c : Char) : (c.toLower).toLower = c.toLower := by
  simp only [Char.toLower]
  by_cases h : c.toNat ≥ 65 ∧ c.toNat ≤ 90
  · have hv : (c.toNat + 32).isValidChar := Or.inl (by omega)
    have hh := toNat_ofNat_valid (c.toNat + 32) hv
    simp only [h, and_true, ge_iff_le, if_true]
    rw [if_neg]
    omega
  · simp [h]

/-- Characters of a collapsed string are underscores or non-separator
characters of the input. -/
theorem mem_collapseSepsGo (c : Char) (b : Bool) (l : PyStr)
    (h : c ∈ collapseSepsGo b l) : c = '_' ∨ (c ∈ l ∧ isDashOrSpace c = false) := by
  induction l generalizing b with
  | nil => cases h
  | cons a t ih =>
    unfold collapseSepsGo at h
    by_cases ha : isDashOrSpace a
    · rw [if_pos ha] at h
      by_cases hb : b
      · rw [if_pos hb] at h
        rcases ih true h with h1 | ⟨h2, h3⟩
        · exact Or.inl h1
        · exact Or.inr ⟨List.mem_cons_of_mem a h2, h3⟩
      · rw [if_neg hb] at h
        rcases List.mem_cons.mp h with rfl | h4
        · exact Or.inl rfl
        · rcases ih true h4 with h1 | ⟨h2, h3⟩
          · exact Or.inl h1
          · exact Or.inr ⟨List.mem_cons_of_mem a h2, h3⟩
    · rw [if_neg ha] at h
      rcases List.mem_cons.mp h with rfl | h4
      · exact Or.inr ⟨List.mem_cons_self _ _, eq_false_of_ne_true ha⟩
      · rcases ih false h4 with h1 | ⟨h2, h3⟩
        · exact Or.inl h1
        · exact Or.inr ⟨List.mem_cons_of_mem a h2, h3⟩

/-- Characters survive underscore stripping only from the input. -/
theorem mem_of_mem_stripUnderscores (c : Char) (l : PyStr)
    (h : c ∈ stripUnderscores l) : c ∈ l := by
  unfold stripUnderscores at h
  rw [List.mem_reverse] at h
  have h1 := (List.dropWhile_sublist _).mem h
  rw [List.mem_reverse] at h1
  exact (List.dropWhile_sublist _).mem h1

/-- Every character of a normalized section name is a word character fixed
by lowercasing. -/
theorem normalize_chars (t : PyStr) (c : Char) (h : c ∈ normalize_section_name t) :
    pyIsWordChar c = true ∧ Char.toLower c = c := by
  unfold normalize_section_name at h
  have h1 := mem_of_mem_stripUnderscores _ _ h
  unfold collapseSeps at h1
  rcases mem_collapseSepsGo _ _ _ h1 with rfl | ⟨h2, h3⟩
  · exact ⟨by decide, by decide⟩
  · unfold keepWordSpaceDash at h2
    obtain ⟨h4, h5⟩ := List.mem_filter.mp h2
    unfold pyLower at h4
    obtain ⟨d, _, rfl⟩ := List.mem_map.mp h4
    refine ⟨?_, toLower_toLower d⟩
    unfold isDashOrSpace at h3
    obtain ⟨hdash, hspace⟩ := Bool.or_eq_false_iff.mp h3
    rw [hspace, hdash] at h5
    simpa using h5

/-- dropWhile is idempotent. -/
theorem dropWhile_idem (p : Char → Bool) (l : PyStr) :
    (l.dropWhile p).dropWhile p = l.dropWhile p := by
  induction l with
  | nil => rfl
  | cons a t ih =>
    by_cases ha : p a
    · rw [List.dropWhile_cons_of_pos ha]
      exact ih
    · rw [List.dropWhile_cons_of_neg ha, List.dropWhile_cons_of_neg ha]

/-- dropWhile never lengthens a list. -/
theorem length_dropWhile_le (p : Char → Bool) (l : PyStr) :
    (l.dropWhile p).length ≤ l.length := by
  induction l with
  | nil => simp
  | cons c rest ih =>
    by_cases h : p c
    · rw [List.dropWhile_cons_of_pos h]
      exact Nat.le_trans ih (Nat.le_succ _)
    · rw [List.dropWhile_cons_of_neg h]

/-- A non-empty fixed point of dropWhile has a head failing the predicate. -/
theorem dropWhile_eq_self_head (p : Char → Bool) (a : Char) (t : PyStr)
    (h : (a :: t).dropWhile p = a :: t) : p a = false := by
  cases ha : p a
  · rfl
  · exfalso
    rw [List.dropWhile_cons_of_pos ha] at h
    have hlen := congrArg List.length h
    have hle := length_dropWhile_le p t
    rw [List.length_cons] at hlen
    omega

/-- A fixed point of leading stripping stays a fixed point after trailing
stripping. -/
theorem dropWhile_rstrip_self (p : Char → Bool) (l : PyStr) (hl : l.dropWhile p = l) :
    ((l.reverse.dropWhile p).reverse).dropWhile p = (l.reverse.dropWhile p).reverse := by
  have hsplit : l = (l.reverse.dropWhile p).reverse ++ (l.reverse.takeWhile p).reverse := by
    conv_lhs => rw [← l.reverse_reverse]
    rw [← List.reverse_append, List.takeWhile_append_dropWhile]
  cases hr : (l.reverse.dropWhile p).reverse with
  | nil => rfl
  | cons a r2 =>
    have hla : l = a :: (r2 ++ (l.reverse.takeWhile p).reverse) := by
      conv_lhs => rw [hsplit, hr]
      rfl
    have hpa : p a = false := by
      apply dropWhile_eq_self_head p a (r2 ++ (l.reverse.takeWhile p).reverse)
      rw [← hla]
      exact hl
    rw [List.dropWhile_cons_of_neg (by simp [hpa])]

/-- Underscore stripping is idempotent. -/
theorem stripUnderscores_idem (l : PyStr) :
    stripUnderscores (stripUnderscores l) = stripUnderscores l := by
  unfold stripUnderscores
  rw [dropWhile_rstrip_self _ _ (dropWhile_idem _ l)]
  rw [List.reverse_reverse, dropWhile_idem]

/-- The numbering-prefix removal fixes any string not starting with a
digit. -/
theorem stripLeadingNumbering_id (y : PyStr) (h : startsWithDigit y = false) :
    stripLeadingNumbering y = y := by
  cases y with
  | nil => rfl
  | cons c rest =>
    simp only [startsWithDigit] at h
    simp only [stripLeadingNumbering]
    rw [if_neg (by simp [h])]

/-- Lowercasing fixes a string of lowercase-fixed characters. -/
theorem pyLower_id (y : PyStr) (h : ∀ c ∈ y, Char.toLower c = c) : pyLower y = y := by
  unfold pyLower
  exact (List.map_congr_left h).trans (List.map_id y)

/-- The character filter fixes a string of word characters. -/
theorem keepWordSpaceDash_id (y : PyStr) (h : ∀ c ∈ y, pyIsWordChar c = true) :
    keepWordSpaceDash y = y := by
  unfold keepWordSpaceDash
  apply List.filter_eq_self.mpr
  intro a ha
  rw [h a ha]
  rfl

/-- Word characters are neither dashes nor whitespace. -/
theorem word_not_sep (c : Char) (hw : pyIsWordChar c = true) : isDashOrSpace c = false := by
  have hdash : ¬(c = '-') := fun he => by
    rw [he] at hw
    exact absurd hw (by decide)
  have hspace : pyIsSpace c = false := by
    cases hs : pyIsSpace c
    · rfl
    · exfalso
      unfold pyIsSpace at hs
      simp only [Bool.or_eq_true, decide_eq_true_eq] at hs
      rcases hs with ((((h | h) | h) | h) | h) | h <;> rw [h] at hw <;>
        exact absurd hw (by decide)
  unfold isDashOrSpace
  rw [hspace, decide_eq_false hdash]
  rfl

/-- The separator collapse fixes a string with no separators. -/
theorem collapseSepsGo_id (y : PyStr) (h : ∀ c ∈ y, isDashOrSpace c = false) :
    collapseSepsGo false y = y := by
  induction y with
  | nil => rfl
  | cons a t ih =>
    unfold collapseSepsGo
    rw [if_neg (by simp [h a (List.mem_cons_self a t)])]
    rw [ih (fun c hc => h c (List.mem_cons_of_mem a hc))]

/-- C4, counterexample: normalization is not idempotent.  The title dot-one-
space-a normalizes to 1_a (the leading dot is deleted after the numbering
check, leaving a digit in front), and a second pass strips that digit run as
a numbering prefix, giving a. -/
theorem c4_idempotence_counterexample :
    normalize_section_name ((".1 a").data) = ("1_a").data ∧
    normalize_section_name (("1_a").data) = ("a").data ∧
    normalize_section_name (normalize_section_name ((".1 a").data))
      ≠ normalize_section_name ((".1 a").data) :=
  ⟨by decide, by decide, by decide⟩

/-- C4, amended: normalization is idempotent on every title whose normalized
form does not begin with a decimal digit (equivalently, the second pass
strips nothing, since a normalized form consists of lowercase-fixed word
characters with no surrounding underscores). -/
theorem c4_normalize_idempotent_amended (t : PyStr)
    (h : startsWithDigit (normalize_section_name t) = false) :
    normalize_section_name (normalize_section_name t) = normalize_section_name t := by
  have hchars := normalize_chars t
  show stripUnderscores (collapseSeps (keepWordSpaceDash (pyLower
    (stripLeadingNumbering (normalize_section_name t))))) = normalize_section_name t
  rw [stripLeadingNumbering_id _ h]
  rw [pyLower_id _ (fun c hc => (hchars c hc).2)]
  rw [keepWordSpaceDash_id _ (fun c hc => (hchars c hc).1)]
  show stripUnderscores (collapseSepsGo false (normalize_section_name t)) = _
  rw [collapseSepsGo_id _ (fun c hc => word_not_sep c (hchars c hc).1)]
  show stripUnderscores (stripUnderscores (collapseSeps (keepWordSpaceDash (pyLower
    (stripLeadingNumbering t))))) = _
  exact stripUnderscores_idem _

/-- C4, witness: idempotence at the title Scope of Work. -/
theorem c4_normalize_idempotent_amended_witness :
    normalize_section_name (normalize_section_name (("Scope of Work").data))
      = normalize_section_name (("Scope of Work").data) :=
  c4_normalize_idempotent_amended (("Scope of Work").data) (by decide)

/-! Lemmas toward the positional write-back guarantee of the drafting
fan-out. -/

/-- Overlaying nothing changes nothing. -/
theorem overlay_nil_right (ss : List PyStr) : overlay ss [] = ss := by
  cases ss <;> rfl

/-- Overlaying over an empty walk yields an empty walk. -/
theorem overlay_nil_left (cs : List PyStr) : overlay [] cs = [] := by
  cases cs <;> rfl

/-- Overlay distributes over an append of walked contents, the second part
consuming the remaining contents. -/
theorem overlay_append (A B cs : List PyStr) :
    overlay (A ++ B) cs = overlay A cs ++ overlay B (cs.drop A.length) := by
  induction A generalizing cs with
  | nil =>
    cases cs with
    | nil => simp [overlay_nil_right]
    | cons c cs2 => simp [overlay]
  | cons a A ih =>
    cases cs with
    | nil => simp [overlay_nil_right]
    | cons c cs2 =>
      simp only [List.cons_append, overlay, List.length_cons, List.drop_succ_cons,
        List.append_eq, ih]

/-- Overlaying a content list of exactly matching length replaces all
contents. -/
theorem overlay_of_length_eq (A cs : List PyStr) (h : A.length = cs.length) :
    overlay A cs = cs := by
  induction A generalizing cs with
  | nil =>
    cases cs with
    | nil => rfl
    | cons c cs2 => cases h
  | cons a A ih =>
    cases cs with
    | nil => cases h
    | cons c cs2 =>
      simp only [overlay]
      rw [ih cs2 (by simpa using h)]

mutual

/-- Positional fill of one node: the walked contents of the filled node are
the overlay of the walked contents by the content list, titles are
untouched, and the leftover contents are those beyond the node's walk. -/
theorem fillNode_walk (s : SecDef) (cs : List PyStr) :
    (walkNode (fillNode s cs).1).map SecDef.content
        = overlay ((walkNode s).map SecDef.content) cs ∧
    (walkNode (fillNode s cs).1).map SecDef.title = (walkNode s).map SecDef.title ∧
    (fillNode s cs).2 = cs.drop (walkNode s).length := by
  cases s with
  | mk t src ins c subs =>
    cases cs with
    | nil => simp [fillNode, overlay_nil_right]
    | cons cNew cs2 =>
      obtain ⟨ih1, ih2, ih3⟩ := fillForest_walk subs cs2
      refine ⟨?_, ?_, ?_⟩
      · simp only [fillNode, walkNode, List.map_cons, SecDef.content, overlay, ih1]
      · simp only [fillNode, walkNode, List.map_cons, SecDef.title, ih2]
      · simp only [fillNode, walkNode, List.length_cons, List.drop_succ_cons, ih3]

/-- Positional fill of a forest, by mutual induction with the node case. -/
theorem fillForest_walk (l : SecForest) (cs : List PyStr) :
    (walkForest (fillForest l cs).1).map SecDef.content
        = overlay ((walkForest l).map SecDef.content) cs ∧
    (walkForest (fillForest l cs).1).map SecDef.title = (walkForest l).map SecDef.title ∧
    (fillForest l cs).2 = cs.drop (walkForest l).length := by
  cases l with
  | nil => simp [fillForest, walkForest, overlay_nil_left]
  | cons k s rest =>
    obtain ⟨ihn1, ihn2, ihn3⟩ := fillNode_walk s cs
    obtain ⟨ihf1, ihf2, ihf3⟩ := fillForest_walk rest (fillNode s cs).2
    simp only [fillForest, walkForest, List.map_append, List.length_append]
    refine ⟨?_, ?_, ?_⟩
    · rw [ihf1, ihn1, ihn3, overlay_append, List.length_map]
    · rw [ihf2, ihn2]
    · rw [ihf3, ihn3, List.drop_drop]

end

/-- After the gather fold, the slot of every launch index processed so far
holds its own task's value, regardless of processing order. -/
theorem gather_slots (vals : List PyStr) (order : List ℕ) (acc : List (Option PyStr)) (j : ℕ) :
    (order.foldl (fun acc i => acc.set i (some (vals.getD i []))) acc)[j]?
      = if j ∈ order ∧ j < acc.length then some (some (vals.getD j [])) else acc[j]? := by
  induction order generalizing acc with
  | nil => simp
  | cons i t ih =>
    rw [List.foldl_cons, ih]
    have hlen : (acc.set i (some (vals.getD i []))).length = acc.length := by simp
    rw [hlen]
    by_cases hjt : j ∈ t ∧ j < acc.length
    · rw [if_pos hjt, if_pos ⟨List.mem_cons_of_mem i hjt.1, hjt.2⟩]
    · rw [if_neg hjt]
      by_cases hji : j = i
      · subst hji
        by_cases hjlen : j < acc.length
        · rw [List.getElem?_set_self hjlen, if_pos ⟨List.mem_cons_self j t, hjlen⟩]
        · rw [List.set_eq_of_length_le (by omega), if_neg (fun hc => hjlen hc.2)]
      · rw [List.getElem?_set_ne (fun he => hji he.symm)]
        rw [if_neg (fun hc => ?_)]
        rcases List.mem_cons.mp hc.1 with rfl | hmem
        · exact hji rfl
        · exact hjt ⟨hmem, hc.2⟩

/-- Gathering along any completion order that is a permutation of the launch
indices produces exactly the task values in launch order. -/
theorem gather_perm (vals : List PyStr) (order : List ℕ)
    (h : order.Perm (List.range vals.length)) :
    (runGather vals order).map (fun o => o.getD []) = vals := by
  apply List.ext_getElem?
  intro j
  rw [List.getElem?_map]
  unfold runGather
  rw [gather_slots, List.length_replicate]
  by_cases hj : j < vals.length
  · have hjmem : j ∈ order := h.mem_iff.mpr (List.mem_range.mpr hj)
    rw [if_pos ⟨hjmem, hj⟩, List.getElem?_eq_getElem hj]
    simp [List.getD_eq_getElem?_getD, List.getElem?_eq_getElem hj]
  · rw [if_neg (fun hc => hj hc.2)]
    rw [List.getElem?_eq_none (by simpa using Nat.le_of_not_lt hj)]
    rw [List.getElem?_eq_none (Nat.le_of_not_lt hj)]
    rfl

/-- C3: for every section tree, every drafting capability and every task
completion order, the content stored in the i-th node of the depth-first
pre-order walk after the fan-out is the draft produced for that same i-th
node (and its title is unchanged), independent of completion order. -/
theorem c3_draft_results_by_position (secs : SecForest) (f : SecDef → PyStr)
    (order : List ℕ) (h : order.Perm (List.range (walkForest secs).length)) (i : ℕ) :
    (walkForest (draft_sections secs f order))[i]?.map SecDef.content
      = ((walkForest secs)[i]?).map (fetch_section_draft f) ∧
    (walkForest (draft_sections secs f order))[i]?.map SecDef.title
      = ((walkForest secs)[i]?).map SecDef.title := by
  have hvlen : ((walkForest secs).map (fetch_section_draft f)).length
      = (walkForest secs).length := List.length_map _ _
  have hcontents : (runGather ((walkForest secs).map (fetch_section_draft f)) order).map
      (fun o => o.getD []) = (walkForest secs).map (fetch_section_draft f) := by
    apply gather_perm
    rw [hvlen]
    exact h
  have hfill := fillForest_walk secs
    ((runGather ((walkForest secs).map (fetch_section_draft f)) order).map (fun o => o.getD []))
  rw [hcontents] at hfill
  obtain ⟨hc, ht, _⟩ := hfill
  have hdraft : walkForest (draft_sections secs f order)
      = walkForest (fillForest secs ((walkForest secs).map (fetch_section_draft f))).1 := by
    simp only [draft_sections]
    rw [hcontents]
  constructor
  · rw [← List.getElem?_map, hdraft, hc,
      overlay_of_length_eq _ _ (by rw [List.length_map, List.length_map]),
      List.getElem?_map]
  · rw [← List.getElem?_map, hdraft, ht, List.getElem?_map]

/-- C3, witness: on the demo tree with completion order 2, 0, 1 (a
permutation of the three launch indices), position 1 of the walk (the
nested subsection) carries its own draft and title. -/
theorem c3_draft_results_by_position_witness :
    ([2, 0, 1] : List ℕ).Perm (List.range (walkForest demoTree).length) ∧
    ((walkForest (draft_sections demoTree SecDef.title [2, 0, 1]))[1]?.map SecDef.content
        = ((walkForest demoTree)[1]?).map (fetch_section_draft SecDef.title) ∧
     (walkForest (draft_sections demoTree SecDef.title [2, 0, 1]))[1]?.map SecDef.title
        = ((walkForest demoTree)[1]?).map SecDef.title) :=
  ⟨by decide, c3_draft_results_by_position demoTree SecDef.title [2, 0, 1] (by decide) 1⟩

end Spec2Proof
